import Mathlib

/-!
Verification of the Monte Carlo European call valuation script
(src/Monte_Carlo_Valuation.py).

The core of the script (lines 28-59) sets up market parameters, simulates
geometric Brownian motion price paths driven by a matrix of standard-normal
shocks, and evaluates the discounted call payoff together with profit/loss
probabilities.  We embed that core shallowly over the real numbers: the
floating-point arithmetic of the script is modelled by exact real
arithmetic, the numpy matrix S of shape N x (M+1) becomes a function of the
path index and the time index, and the random matrix Z is an explicit input
(the script draws it once and uses it nowhere else).
-/

namespace MonteCarlo

/-- The scalar market parameters and simulation controls set up in
section 1 of the script (lines 29-36).  In the script they are module-level
constants; here they are gathered into one immutable record so the
simulator can be stated for arbitrary values. -/
structure MCParams where
  S0 : ℝ
  K : ℝ
  T : ℝ
  r : ℝ
  sigma : ℝ
  num_simulations : ℕ
  num_steps : ℕ

/-- Discrete step size, line 36 of the script: dt = T / num_steps. -/
noncomputable def dt (p : MCParams) : ℝ := p.T / (p.num_steps : ℝ)

/-- The concrete parameter values compiled into the script (lines 29-35). -/
noncomputable def script_params : MCParams :=
  { S0 := 255.78
    K := 265.00
    T := 1.0
    r := 0.041
    sigma := 0.28
    num_simulations := 10000
    num_steps := 252 }

/-- The price path matrix, lines 45-52 of the script.  Row i, column t is
the price of path i after t steps.  Column 0 is initialised to S0
(line 46); the loop on lines 49-52 fills column t from column t-1 by
S[:, t] = S[:, t-1] * exp((r - 0.5*sigma^2)*dt + sigma*sqrt(dt)*Z[:, t-1]).
Each row only ever reads its own entries, so the vectorised update is
modelled as a recursion over t for each path index i, with the shock
matrix Z passed explicitly. -/
noncomputable def S (p : MCParams) (Z : ℕ → ℕ → ℝ) (i : ℕ) : ℕ → ℝ
  | 0 => p.S0
  | t + 1 =>
      S p Z i t *
        Real.exp ((p.r - 0.5 * p.sigma ^ 2) * dt p +
          p.sigma * Real.sqrt (dt p) * Z i t)

/-- Terminal prices, line 55: S_T = S[:, -1], the last of the M+1 columns. -/
noncomputable def S_T (p : MCParams) (Z : ℕ → ℕ → ℝ) (i : ℕ) : ℝ :=
  S p Z i p.num_steps

/-- Per-path payoff, line 56: payoffs = np.maximum(S_T - K, 0). -/
noncomputable def payoffs (p : MCParams) (Z : ℕ → ℕ → ℝ) (i : ℕ) : ℝ :=
  max (S_T p Z i - p.K) 0

/-- Option price estimate, line 57:
option_price = np.mean(payoffs) * np.exp(-r * T), where np.mean of the
N-vector of payoffs is its sum divided by N. -/
noncomputable def option_price (p : MCParams) (Z : ℕ → ℕ → ℝ) : ℝ :=
  ((∑ i ∈ Finset.range p.num_simulations, payoffs p Z i) /
      (p.num_simulations : ℝ)) *
    Real.exp (-p.r * p.T)

open Classical in
/-- Probability of profit, line 58:
prob_profit = np.sum(S_T > K) / num_simulations * 100, where np.sum of the
boolean vector counts the paths whose terminal price strictly exceeds K. -/
noncomputable def prob_profit (p : MCParams) (Z : ℕ → ℕ → ℝ) : ℝ :=
  ((((Finset.range p.num_simulations).filter
        fun i => p.K < S_T p Z i).card : ℝ) /
      (p.num_simulations : ℝ)) * 100

/-- Probability of loss, line 59: prob_loss = 100 - prob_profit. -/
noncomputable def prob_loss (p : MCParams) (Z : ℕ → ℕ → ℝ) : ℝ :=
  100 - prob_profit p Z

/-- Modelled from the spec (section 4.1): one GBM update step as the spec
writes it, S[t] = S[t-1] * exp((r - half sigma^2) dt + sigma sqrt(dt) Z),
to be compared with the update performed by the code. -/
noncomputable def gbm_spec_update (r sigma dtv prev z : ℝ) : ℝ :=
  prev * Real.exp ((r - 0.5 * sigma ^ 2) * dtv + sigma * Real.sqrt dtv * z)

/-- Modelled from the spec (section 4.2): the payoff evaluator as a pure
function of the terminal-price vector, option price estimate
mean(payoffs) * exp(-r*T). -/
noncomputable def option_price_spec (K r T : ℝ) (N : ℕ) (sT : ℕ → ℝ) : ℝ :=
  ((∑ i ∈ Finset.range N, max (sT i - K) 0) / (N : ℝ)) * Real.exp (-r * T)

open Classical in
/-- Modelled from the spec (section 4.2): probability of profit as a pure
function of the terminal-price vector, count(terminal > K) / N * 100 with
a strict comparison. -/
noncomputable def prob_profit_spec (K : ℝ) (N : ℕ) (sT : ℕ → ℝ) : ℝ :=
  ((((Finset.range N).filter fun i => K < sT i).card : ℝ) / (N : ℝ)) * 100

/-- Small concrete parameter record used to instantiate theorems with
hypotheses at a concrete input. -/
noncomputable def wparams : MCParams :=
  { S0 := 1
    K := 1
    T := 1
    r := 0
    sigma := 0
    num_simulations := 1
    num_steps := 1 }

/-- The identically-zero shock matrix, a concrete input for instantiation. -/
noncomputable def Zzero : ℕ → ℕ → ℝ := fun _ _ => 0

/-- C1: for every time step t between 1 and M and every path i, the price
written to column t equals the previous column's price multiplied by
exp((r - 0.5*sigma^2)*dt + sigma*sqrt(dt)*Z[i, t-1]) with that path's
shock for the step, exactly the GBM update the spec states. -/
theorem step_eq_gbm_spec_update (p : MCParams) (Z : ℕ → ℕ → ℝ) (i t : ℕ)
    (h1 : 1 ≤ t) (h2 : t ≤ p.num_steps) :
    S p Z i t =
      gbm_spec_update p.r p.sigma (dt p) (S p Z i (t - 1)) (Z i (t - 1)) := by
  obtain ⟨u, rfl⟩ : ∃ u, t = u + 1 := ⟨t - 1, (Nat.succ_pred_eq_of_pos h1).symm⟩
  simp [S, gbm_spec_update]

/-- Witness for C1: the first update step of the script's own parameters,
with the zero shock matrix. -/
theorem step_eq_gbm_spec_update_witness :
    1 ≤ 1 ∧ 1 ≤ script_params.num_steps ∧
      S script_params Zzero 0 1 =
        gbm_spec_update script_params.r script_params.sigma (dt script_params)
          (S script_params Zzero 0 (1 - 1)) (Zzero 0 (1 - 1)) :=
  ⟨le_refl 1, by norm_num [script_params],
    step_eq_gbm_spec_update script_params Zzero 0 1 (le_refl 1)
      (by norm_num [script_params])⟩

/-- C2: the option price computed on line 57 is exactly the spec's payoff
evaluator, mean(max(terminal - K, 0)) * exp(-r*T), applied to the terminal
column of the simulated matrix; the evaluator itself is a pure function of
an arbitrary terminal-price vector and the parameters K, r, T, N. -/
theorem option_price_eq_spec (p : MCParams) (Z : ℕ → ℕ → ℝ) :
    option_price p Z =
      option_price_spec p.K p.r p.T p.num_simulations (S_T p Z) := rfl

/-- C5: the probability of profit equals count(terminal > K)/N * 100 with a
strict comparison, the probability of loss equals 100 minus the probability
of profit, and their sum equals 100 exactly, for every parameter record and
shock matrix. -/
theorem prob_profit_loss_sum (p : MCParams) (Z : ℕ → ℕ → ℝ) :
    prob_profit p Z = prob_profit_spec p.K p.num_simulations (S_T p Z) ∧
      prob_loss p Z = 100 - prob_profit p Z ∧
      prob_profit p Z + prob_loss p Z = 100 := by
  refine ⟨rfl, rfl, ?_⟩
  rw [prob_loss]
  ring

/-- C9: the shock matrix is the only source of randomness: the whole
pipeline is a function of the parameters and the shock matrix, so two runs
with equal parameters and pointwise-equal shocks produce identical price
path matrices, option prices and profit/loss probabilities. -/
theorem deterministic (p q : MCParams) (Z W : ℕ → ℕ → ℝ)
    (hpq : p = q) (hZW : ∀ i t, Z i t = W i t) :
    (∀ i t, S p Z i t = S q W i t) ∧
      option_price p Z = option_price q W ∧
      prob_profit p Z = prob_profit q W ∧
      prob_loss p Z = prob_loss q W := by
  subst hpq
  have hZ : Z = W := funext fun i => funext fun t => hZW i t
  subst hZ
  exact ⟨fun _ _ => rfl, rfl, rfl, rfl⟩

/-- Witness for C9: two runs on the script's parameters with the zero shock
matrix coincide. -/
theorem deterministic_witness :
    (∀ i t, S script_params Zzero i t = S script_params Zzero i t) ∧
      option_price script_params Zzero = option_price script_params Zzero ∧
      prob_profit script_params Zzero = prob_profit script_params Zzero ∧
      prob_loss script_params Zzero = prob_loss script_params Zzero :=
  deterministic script_params script_params Zzero Zzero rfl fun _ _ => rfl

/-- C10: the option price estimate is nonnegative for every shock matrix
and every parameter record with at least one path: it is a mean of
nonnegative payoffs scaled by the positive discount factor exp(-r*T). -/
theorem option_price_nonneg (p : MCParams) (Z : ℕ → ℕ → ℝ)
    (hN : 1 ≤ p.num_simulations) : 0 ≤ option_price p Z := by
  unfold option_price
  apply mul_nonneg
  · apply div_nonneg
    · exact Finset.sum_nonneg fun i _ => le_max_right _ _
    · positivity
  · exact (Real.exp_pos _).le

/-- Witness for C10: nonnegativity at a concrete parameter record. -/
theorem option_price_nonneg_witness :
    1 ≤ wparams.num_simulations ∧ 0 ≤ option_price wparams Zzero :=
  ⟨by norm_num [wparams],
    option_price_nonneg wparams Zzero (by norm_num [wparams])⟩

/-- C7: column 0 of the price path matrix equals S0 exactly for every path,
and since the update loop of lines 49-52 only writes columns 1..M (column t
is defined from column t-1 without modifying it), column 0 is the base case
of the recursion and is untouched by every later step. -/
theorem first_column_eq_S0 (p : MCParams) (Z : ℕ → ℕ → ℝ) (i : ℕ) :
    S p Z i 0 = p.S0 := rfl

/-- C8: the payoff of every path equals max(terminal price - K, 0), hence
every payoff is nonnegative, for every parameter record and shock matrix. -/
theorem payoffs_eq_max_and_nonneg (p : MCParams) (Z : ℕ → ℕ → ℝ) (i : ℕ) :
    payoffs p Z i = max (S_T p Z i - p.K) 0 ∧ 0 ≤ payoffs p Z i :=
  ⟨rfl, le_max_right _ _⟩

/-- C4: whenever S0 is positive, every entry of the N x (M+1) price path
matrix is positive, for every shock matrix: each step multiplies a positive
price by a value of the exponential, which is positive. -/
theorem price_paths_pos (p : MCParams) (Z : ℕ → ℕ → ℝ) (hS0 : 0 < p.S0)
    (i : ℕ) (_hi : i < p.num_simulations) (t : ℕ) (_ht : t ≤ p.num_steps) :
    0 < S p Z i t := by
  have h : ∀ u, 0 < S p Z i u := by
    intro u
    induction u with
    | zero => exact hS0
    | succ v ih => exact mul_pos ih (Real.exp_pos _)
  exact h t

/-- Witness for C4: positivity of the entry in row 0, column 1 at a
concrete parameter record with S0 = 1. -/
theorem price_paths_pos_witness :
    0 < wparams.S0 ∧ 0 < wparams.num_simulations ∧
      1 ≤ wparams.num_steps ∧ 0 < S wparams Zzero 0 1 :=
  ⟨by norm_num [wparams], by norm_num [wparams], by norm_num [wparams],
    price_paths_pos wparams Zzero (by norm_num [wparams]) 0
      (by norm_num [wparams]) 1 (by norm_num [wparams])⟩

/-- C6: with sigma = 0 (and at least one step and one path, as the spec
requires of valid inputs), every path's terminal price is exactly
S0 * exp(r*T) - the M factors exp(r*dt) collapse to the deterministic
drift since dt*M = T - and the option price estimate is exactly
max(S0*exp(r*T) - K, 0) * exp(-r*T). -/
theorem sigma_zero_deterministic (p : MCParams) (Z : ℕ → ℕ → ℝ)
    (hsig : p.sigma = 0) (hM : 1 ≤ p.num_steps) (hN : 1 ≤ p.num_simulations) :
    (∀ i, S_T p Z i = p.S0 * Real.exp (p.r * p.T)) ∧
      option_price p Z =
        max (p.S0 * Real.exp (p.r * p.T) - p.K) 0 * Real.exp (-p.r * p.T) := by
  have hMne : (p.num_steps : ℝ) ≠ 0 := Nat.cast_ne_zero.mpr (by omega)
  have hNne : (p.num_simulations : ℝ) ≠ 0 := Nat.cast_ne_zero.mpr (by omega)
  have hstep : ∀ i t, S p Z i t = p.S0 * Real.exp (p.r * dt p) ^ t := by
    intro i t
    induction t with
    | zero => simp [S]
    | succ u ih =>
        have harg : (p.r - 0.5 * p.sigma ^ 2) * dt p +
            p.sigma * Real.sqrt (dt p) * Z i u = p.r * dt p := by
          rw [hsig]; ring
        simp only [S]
        rw [ih, harg, pow_succ]
        ring
  have hexp : Real.exp (p.r * dt p) ^ p.num_steps = Real.exp (p.r * p.T) := by
    rw [← Real.exp_nat_mul]
    congr 1
    rw [dt]
    field_simp
  have hterm : ∀ i, S_T p Z i = p.S0 * Real.exp (p.r * p.T) := fun i => by
    rw [S_T, hstep, hexp]
  refine ⟨hterm, ?_⟩
  have hpay : ∀ i, payoffs p Z i =
      max (p.S0 * Real.exp (p.r * p.T) - p.K) 0 := fun i => by
    rw [payoffs, hterm]
  simp only [option_price]
  rw [Finset.sum_congr rfl fun i _ => hpay i]
  rw [Finset.sum_const, Finset.card_range, nsmul_eq_mul,
    mul_div_cancel_left₀ _ hNne]

/-- Witness for C6: the degenerate case at the concrete record with
sigma = 0, one step and one path. -/
theorem sigma_zero_deterministic_witness :
    wparams.sigma = 0 ∧ 1 ≤ wparams.num_steps ∧ 1 ≤ wparams.num_simulations ∧
      ((∀ i, S_T wparams Zzero i =
          wparams.S0 * Real.exp (wparams.r * wparams.T)) ∧
        option_price wparams Zzero =
          max (wparams.S0 * Real.exp (wparams.r * wparams.T) - wparams.K) 0 *
            Real.exp (-wparams.r * wparams.T)) :=
  ⟨by simp [wparams], by norm_num [wparams], by norm_num [wparams],
    sigma_zero_deterministic wparams Zzero (by simp [wparams])
      (by norm_num [wparams]) (by norm_num [wparams])⟩

/-- A parameter record that is invalid per the spec: S0 = 0 is not a
positive spot price.  All other fields keep the script's values except for
smaller simulation controls. -/
noncomputable def invalid_params : MCParams :=
  { S0 := 0
    K := 265.00
    T := 1.0
    r := 0.041
    sigma := 0.28
    num_simulations := 2
    num_steps := 3 }

/-- C3 counterexample: the script has no parameter validation (lines 28-59
run unconditionally).  On the invalid assignment S0 = 0 the simulation
completes and silently returns degenerate output - an all-zero terminal
column, option price 0 and probability of profit 0 - instead of failing
with a parameter-validation error as the claim states. -/
theorem no_validation_counterexample :
    invalid_params.S0 ≤ 0 ∧
      S invalid_params Zzero 0 invalid_params.num_steps = 0 ∧
      option_price invalid_params Zzero = 0 ∧
      prob_profit invalid_params Zzero = 0 := by
  have hS : ∀ i t, S invalid_params Zzero i t = 0 := by
    intro i t
    induction t with
    | zero => simp [S, invalid_params]
    | succ u ih => simp [S, ih]
  have hpay : ∀ i, payoffs invalid_params Zzero i = 0 := by
    intro i
    simp only [payoffs, S_T, hS]
    have : (0 : ℝ) - invalid_params.K ≤ 0 := by norm_num [invalid_params]
    exact max_eq_right this
  refine ⟨by norm_num [invalid_params], hS 0 _, ?_, ?_⟩
  · simp only [option_price]
    rw [Finset.sum_congr rfl fun i _ => hpay i]
    simp
  · simp only [prob_profit]
    have hfalse : ∀ i ∈ Finset.range invalid_params.num_simulations,
        ¬ invalid_params.K < S_T invalid_params Zzero i := by
      intro i _
      rw [S_T, hS]
      norm_num [invalid_params]
    rw [Finset.filter_false_of_mem hfalse]
    simp

/-- C3 amended: the script performs no parameter validation; on an invalid
assignment it silently proceeds.  In particular, with S0 = 0 (and any
nonnegative strike) every entry of the price path matrix is 0 and the
option price estimate is 0 - degenerate output, with no error raised. -/
theorem no_validation_silent_zero (p : MCParams) (Z : ℕ → ℕ → ℝ)
    (hS0 : p.S0 = 0) (hK : 0 ≤ p.K) :
    (∀ i t, S p Z i t = 0) ∧ option_price p Z = 0 := by
  have hS : ∀ i t, S p Z i t = 0 := by
    intro i t
    induction t with
    | zero => exact hS0
    | succ u ih => simp [S, ih]
  refine ⟨hS, ?_⟩
  have hpay : ∀ i, payoffs p Z i = 0 := by
    intro i
    rw [payoffs, S_T, hS, zero_sub]
    exact max_eq_right (neg_nonpos.mpr hK)
  simp only [option_price]
  rw [Finset.sum_congr rfl fun i _ => hpay i]
  simp

/-- Witness for the amended C3: the silent all-zero run at the concrete
invalid record. -/
theorem no_validation_silent_zero_witness :
    invalid_params.S0 = 0 ∧ 0 ≤ invalid_params.K ∧
      ((∀ i t, S invalid_params Zzero i t = 0) ∧
        option_price invalid_params Zzero = 0) :=
  ⟨by simp [invalid_params], by norm_num [invalid_params],
    no_validation_silent_zero invalid_params Zzero (by simp [invalid_params])
      (by norm_num [invalid_params])⟩

end MonteCarlo
